import Mathlib

/-!
Shallow embedding of the AgentX multi-agent orchestrator:
`src/agentx/orchestrator/agent_profiles.py` (registry),
`src/agentx/orchestrator/task_router.py` (router) and
`src/agentx/orchestrator/pipeline.py` (pipeline executor).

Python dicts keyed by agent id are modelled as lists of profiles looked up
with `List.find?`; Python's stable `sorted(..., key=...)` is modelled by a
stable insertion sort; exceptions are modelled with `Except String`.
-/

namespace AgentX

/-- Mirrors `TaskStatus` of `pipeline.py`. -/
inductive TaskStatus where
  | pending
  | in_progress
  | completed
  | failed
  | review
  | remediation
deriving DecidableEq, Repr

/-- Mirrors the fields of `AgentProfile` (`agent_profiles.py`) that the
orchestrator reads: identifier, display name, enabled flag and priority
rank (1 = highest). -/
structure AgentProfile where
  id : String
  name : String
  enabled : Bool
  priority_rank : Nat
deriving DecidableEq, Repr

/-- The registry's `_profiles` dict, modelled as a list of profiles with
distinct ids in insertion order. -/
abbrev Registry := List AgentProfile

/-- Mirrors `AgentRegistry.get`: dictionary lookup by agent id. -/
def Registry.get (reg : Registry) (agent_id : String) : Option AgentProfile :=
  List.find? (fun p => p.id == agent_id) reg

/-- Mirrors `AgentRegistry.list_enabled`: the enabled profiles in
registry order. -/
def Registry.list_enabled (reg : Registry) : List AgentProfile :=
  List.filter (fun p => p.enabled) reg

/-- The sort key of `AgentRegistry.get_ranked`: compare profiles by
`priority_rank`. -/
def rankLe (a b : AgentProfile) : Prop :=
  a.priority_rank ≤ b.priority_rank

instance : DecidableRel rankLe := fun a b => Nat.decLe a.priority_rank b.priority_rank

instance : IsTotal AgentProfile rankLe := ⟨fun a b => Nat.le_total a.priority_rank b.priority_rank⟩

instance : IsTrans AgentProfile rankLe := ⟨fun _ _ _ => Nat.le_trans⟩

/-- Mirrors `AgentRegistry.get_ranked`: enabled agents sorted by priority
rank (1 = highest) with Python's stable `sorted`, modelled by a stable
insertion sort. -/
def Registry.get_ranked (reg : Registry) : List AgentProfile :=
  List.insertionSort rankLe reg.list_enabled

/-- Mirrors `PRIMARY_ROUTING_TABLE` of `task_router.py`. -/
def PRIMARY_ROUTING_TABLE : List (String × List String) :=
  [ ("coding", ["openai_codex", "claude_code", "kimi", "github_copilot", "manus"]),
    ("testing", ["openai_codex", "manus", "kimi_claw", "gitlab_duo", "claude_code"]),
    ("deployment", ["gitlab_duo", "github_copilot", "google_cloud_cli", "manus", "genspark"]),
    ("legal", ["abacus_ai", "claude_code"]),
    ("documentation", ["claude_code", "kimi", "abacus_ai", "github_copilot"]),
    ("integration", ["zapier_duo", "genspark", "openai_codex", "claude_code", "manus"]),
    ("remediation", ["claude_code", "openai_codex", "kimi_claw", "gitlab_duo"]),
    ("automation", ["zapier_duo", "kimi_claw", "manus", "genspark", "vscode_ai", "github_copilot"]),
    ("security", ["gitlab_duo", "claude_code", "openai_codex"]),
    ("review", ["claude_code", "kimi", "github_copilot", "gitlab_duo"]) ]

/-- Mirrors `EMERGENCY_FALLBACK_CHAIN` of `task_router.py`. -/
def EMERGENCY_FALLBACK_CHAIN : List String :=
  ["deepseek", "groq", "gemini_free", "cloudflare_workers_ai"]

/-- Mirrors `PRIMARY_ROUTING_TABLE.get(category, [])`. -/
def staticCandidates (category : String) : List String :=
  (List.lookup category PRIMARY_ROUTING_TABLE).getD []

/-- The test `profile and profile.enabled` applied to a candidate id, as in
the loop of `TaskRouter.route`. -/
def enabledIn (reg : Registry) (agent_id : String) : Bool :=
  match reg.get agent_id with
  | some p => p.enabled
  | none => false

/-- Mirrors `TaskRouter.route`: first enabled candidate of the static
table, else the head of `get_ranked()`, else an exception. The priority
argument is only logged by the source, never branched on. -/
def route (reg : Registry) (category : String) (priority : String) :
    Except String String :=
  let _ := priority
  match List.find? (fun aid => enabledIn reg aid) (staticCandidates category) with
  | some agent_id => Except.ok agent_id
  | none =>
      match reg.get_ranked with
      | fallback :: _ => Except.ok fallback.id
      | [] => Except.error ("No available agent for category: " ++ category)

/-- Mirrors the loop of `TaskRouter.route_with_fallback` that appends each
emergency agent not already among the candidates whose profile exists and
is enabled. -/
def addEmergency (reg : Registry) (cands : List String) :
    List String → List String
  | [] => cands
  | fa :: rest =>
      if fa ∈ cands then addEmergency reg cands rest
      else if enabledIn reg fa then addEmergency reg (cands ++ [fa]) rest
      else addEmergency reg cands rest

/-- Mirrors `TaskRouter.route_with_fallback`. -/
def route_with_fallback (reg : Registry) (category : String) : List String :=
  addEmergency reg (staticCandidates category) EMERGENCY_FALLBACK_CHAIN

/-- Mirrors the fields of `PipelineTask` (`pipeline.py`) that the executor
reads and writes. Categories and priorities are the string values of their
enums (the pydantic config uses enum values). -/
structure Task where
  id : String
  title : String
  category : String
  priority : String
  status : TaskStatus
  assigned_agent : Option String
  fallback_agents : List String
  dependencies : List String
  error_log : List String
  retry_count : Nat
  max_retries : Nat
deriving DecidableEq, Repr

/-- Python truthiness of an optional string: `None` and the empty string
are falsy, as tested by `if not task.assigned_agent`. -/
def truthy : Option String → Bool
  | none => false
  | some s => !(s == "")

/-- Mirrors `AgentPipeline.create_task`. The source derives the id as the
first 12 hex digits of a sha256 of title, description and category; the
hash digest is abstracted as the `task_id` argument. All other fields take
the `PipelineTask` model defaults. -/
def create_task (task_id title : String) (category priority : String)
    (assigned_agent : Option String) (dependencies : List String) : Task :=
  { id := task_id
    title := title
    category := category
    priority := priority
    status := TaskStatus.pending
    assigned_agent := assigned_agent
    fallback_agents := []
    dependencies := dependencies
    error_log := []
    retry_count := 0
    max_retries := 3 }

/-- An entry of the `_execution_log` audit trail, as built by
`AgentPipeline._log_event`. -/
structure Event where
  event : String
  task_id : String
  task_title : String
  agent : Option String
  status : TaskStatus
deriving DecidableEq, Repr

/-- Mirrors the dict literal of `AgentPipeline._log_event`. -/
def mkEvent (event_type : String) (t : Task) : Event :=
  { event := event_type
    task_id := t.id
    task_title := t.title
    agent := t.assigned_agent
    status := t.status }

/-- The mutable pipeline state read by the executor: the `_task_queue` and
the `_execution_log`. -/
structure PState where
  queue : List Task
  log : List Event
deriving DecidableEq, Repr

/-- Mirrors `AgentPipeline._check_dependencies`: every dependency id must
resolve to a queue task whose status is COMPLETED. -/
def check_dependencies (queue : List Task) (t : Task) : Bool :=
  t.dependencies.all fun dep_id =>
    match List.find? (fun u => u.id == dep_id) queue with
    | some dep_task => dep_task.status == TaskStatus.completed
    | none => false

/-- The message appended to `error_log` when `execute_stage` skips a task
whose dependencies are not met. -/
def blockedMsg (t : Task) : String :=
  "Blocked: dependencies not met: " ++ String.intercalate ", " t.dependencies

/-- The blocked task as rewritten by `execute_stage`: status reset to
PENDING and one blocking entry appended to the error log. -/
def blockTask (t : Task) : Task :=
  { t with status := TaskStatus.pending, error_log := t.error_log ++ [blockedMsg t] }

/-- Mirrors `if not task.assigned_agent: task.assigned_agent =
self._route_task(task)`: route only when the current assignment is falsy,
and let a routing exception propagate. -/
def assignAgent (reg : Registry) (t : Task) : Except String Task :=
  if truthy t.assigned_agent then Except.ok t
  else
    match route reg t.category t.priority with
    | Except.ok agent_id => Except.ok { t with assigned_agent := some agent_id }
    | Except.error e => Except.error e

/-- The body of `execute_stage` once a task has an agent: set IN_PROGRESS,
log `task_started`, then (the try block performs no fallible call) set
COMPLETED and log `task_completed`. Returns the finished task and the two
audit events in order. -/
def processReady (t : Task) : Task × List Event :=
  let t1 := { t with status := TaskStatus.in_progress }
  let e1 := mkEvent "task_started" t1
  let t2 := { t1 with status := TaskStatus.completed }
  let e2 := mkEvent "task_completed" t2
  (t2, [e1, e2])

/-- Mirrors the `except` handler of `execute_stage` (lines 227-241 of
`pipeline.py`), which the try body can never trigger: mark FAILED, append
the error, bump the retry count, log `task_failed`, and when retries
remain and fallback agents exist, move to REMEDIATION on the clamped
fallback agent. Returns the task and the event types logged. -/
def handleFailure (t : Task) (err : String) : Task × List String :=
  let t1 := { t with
    status := TaskStatus.failed
    error_log := t.error_log ++ [err]
    retry_count := t.retry_count + 1 }
  if t1.retry_count < t1.max_retries ∧ t1.fallback_agents ≠ [] then
    let t2 := { t1 with
      assigned_agent :=
        some (t1.fallback_agents.getD
          (min (t1.retry_count - 1) (t1.fallback_agents.length - 1)) "")
      status := TaskStatus.remediation }
    (t2, ["task_failed", "task_remediation"])
  else (t1, ["task_failed"])

/-- Write an updated task back over every queue entry with the same id,
emulating the mutation of a queue-resident task object. -/
def updateTask (queue : List Task) (t : Task) : List Task :=
  queue.map fun u => if u.id == t.id then t else u

/-- The current state of a stage task: stage tasks alias queue objects, so
the queue entry with the task's id (when present) is the object's current
state. -/
def fetchTask (queue : List Task) (t : Task) : Task :=
  (List.find? (fun u => u.id == t.id) queue).getD t

/-- Mirrors `AgentPipeline.execute_stage`: process the stage's tasks in
order, skipping blocked tasks with an error-log entry, routing unassigned
tasks (a routing exception propagates and aborts the stage), and
completing the rest. Returns the updated state and the per-task results. -/
def execStage (reg : Registry) (s : PState) :
    List Task → Except String (PState × List Task)
  | [] => Except.ok (s, [])
  | t0 :: rest =>
      let t := fetchTask s.queue t0
      if check_dependencies s.queue t then
        match assignAgent reg t with
        | Except.error e => Except.error e
        | Except.ok t1 =>
            let (t2, evs) := processReady t1
            let s1 : PState := { queue := updateTask s.queue t2, log := s.log ++ evs }
            match execStage reg s1 rest with
            | Except.ok (s2, res) => Except.ok (s2, t2 :: res)
            | Except.error e => Except.error e
      else
        let t1 := blockTask t
        let s1 : PState := { s with queue := updateTask s.queue t1 }
        match execStage reg s1 rest with
        | Except.ok (s2, res) => Except.ok (s2, t1 :: res)
        | Except.error e => Except.error e

/-- Mirrors the stage loop of `AgentPipeline.run`: execute every stage in
order, concatenating results; an exception from any stage propagates. -/
def runStages (reg : Registry) (s : PState) :
    List (List Task) → Except String (PState × List Task)
  | [] => Except.ok (s, [])
  | st :: rest =>
      match execStage reg s st with
      | Except.error e => Except.error e
      | Except.ok (s1, res) =>
          match runStages reg s1 rest with
          | Except.error e => Except.error e
          | Except.ok (s2, res') => Except.ok (s2, res ++ res')

/-- Mirrors `PipelineResult`. The agent utilization dict is modelled as an
association list in insertion order. -/
structure PipelineResult where
  pipeline_name : String
  total_tasks : Nat
  completed : Nat
  failed : Nat
  in_review : Nat
  execution_log : List Event
  agent_utilization : List (String × Nat)
deriving DecidableEq, Repr

/-- One step of the utilization dict update
`utilization[agent] = utilization.get(agent, 0) + 1`. -/
def bumpCount : List (String × Nat) → String → List (String × Nat)
  | [], k => [(k, 1)]
  | (k', v) :: rest, k =>
      if k' == k then (k', v + 1) :: rest else (k', v) :: bumpCount rest k

/-- The body of the utilization loop of `AgentPipeline.run`: count a task
when its assigned agent is truthy (`if task.assigned_agent:`). -/
def utilStep (m : List (String × Nat)) (t : Task) : List (String × Nat) :=
  match t.assigned_agent with
  | some a => if a == "" then m else bumpCount m a
  | none => m

/-- The utilization loop of `AgentPipeline.run`: count every result task
whose assigned agent is truthy. -/
def buildUtil (tasks : List Task) : List (String × Nat) :=
  tasks.foldl utilStep []

/-- Mirrors `AgentPipeline.run`: execute all stages, then aggregate counts
and utilization into a `PipelineResult`. -/
def run (reg : Registry) (name : String) (s : PState)
    (stages : List (List Task)) : Except String PipelineResult :=
  match runStages reg s stages with
  | Except.error e => Except.error e
  | Except.ok (s1, all) =>
      Except.ok
        { pipeline_name := name
          total_tasks := all.length
          completed := (all.filter (fun t => t.status == TaskStatus.completed)).length
          failed := (all.filter (fun t => t.status == TaskStatus.failed)).length
          in_review := (all.filter (fun t => t.status == TaskStatus.review)).length
          execution_log := s1.log
          agent_utilization := buildUtil all }

/-- A registry with no enabled profile at all. -/
def no_enabled (reg : Registry) : Prop :=
  ∀ p ∈ reg, p.enabled = false

/-- Concrete profile used in examples: the first static candidate for
`coding`, enabled, rank 1. -/
def wCodex : AgentProfile :=
  { id := "openai_codex", name := "OpenAI Codex", enabled := true, priority_rank := 1 }

/-- Concrete profile used in examples: the second static candidate for
`coding`, enabled, rank 2. -/
def wClaude : AgentProfile :=
  { id := "claude_code", name := "Claude Code", enabled := true, priority_rank := 2 }

/-- `wCodex` with its enabled flag cleared. -/
def wCodexOff : AgentProfile :=
  { wCodex with enabled := false }

/-- Concrete profile used in examples: enabled but absent from every
static routing list and from the emergency chain. -/
def wZeta : AgentProfile :=
  { id := "zeta_agent", name := "Zeta", enabled := true, priority_rank := 5 }

/-! ### Registry and router lemmas -/

theorem get_mem {reg : Registry} {aid : String} {p : AgentProfile}
    (h : reg.get aid = some p) : p ∈ reg :=
  List.mem_of_find?_eq_some h

theorem enabledIn_false_of_no_enabled {reg : Registry} (h : no_enabled reg)
    (aid : String) : enabledIn reg aid = false := by
  unfold enabledIn
  cases hg : reg.get aid with
  | none => rfl
  | some p => simpa using h p (get_mem hg)

theorem list_enabled_nil_iff {reg : Registry} :
    reg.list_enabled = [] ↔ no_enabled reg := by
  unfold Registry.list_enabled no_enabled
  rw [List.filter_eq_nil_iff]
  constructor
  · intro h p hp
    simpa using h p hp
  · intro h p hp
    simp [h p hp]

theorem get_ranked_nil_iff {reg : Registry} :
    reg.get_ranked = [] ↔ reg.list_enabled = [] := by
  unfold Registry.get_ranked
  constructor
  · intro h
    have hp := List.perm_insertionSort rankLe reg.list_enabled
    rw [h] at hp
    exact (List.Perm.nil_eq hp).symm
  · intro h
    rw [h]
    rfl

theorem route_error_iff (reg : Registry) (category priority : String) :
    (∃ e, route reg category priority = Except.error e) ↔ no_enabled reg := by
  unfold route
  constructor
  · intro ⟨e, he⟩
    cases hf : List.find? (fun aid => enabledIn reg aid) (staticCandidates category) with
    | some w => rw [hf] at he; exact absurd he (by simp)
    | none =>
        rw [hf] at he
        cases hr : reg.get_ranked with
        | cons p ps => rw [hr] at he; exact absurd he (by simp)
        | nil => exact list_enabled_nil_iff.mp (get_ranked_nil_iff.mp hr)
  · intro h
    have hf : List.find? (fun aid => enabledIn reg aid) (staticCandidates category) = none := by
      rw [List.find?_eq_none]
      intro aid _
      simp [enabledIn_false_of_no_enabled h aid]
    have hr : reg.get_ranked = [] :=
      get_ranked_nil_iff.mpr (list_enabled_nil_iff.mpr h)
    rw [hf, hr]
    exact ⟨_, rfl⟩

theorem route_of_find_some {reg : Registry} {category priority w : String}
    (hf : List.find? (fun aid => enabledIn reg aid) (staticCandidates category) = some w) :
    route reg category priority = Except.ok w := by
  unfold route
  rw [hf]

theorem route_of_find_none {reg : Registry} {category priority : String}
    {p : AgentProfile} {ps : List AgentProfile}
    (hf : List.find? (fun aid => enabledIn reg aid) (staticCandidates category) = none)
    (hr : reg.get_ranked = p :: ps) :
    route reg category priority = Except.ok p.id := by
  unfold route
  rw [hf, hr]

theorem ranked_head_min {reg : Registry} {p : AgentProfile} {ps : List AgentProfile}
    (hr : reg.get_ranked = p :: ps) :
    ∀ q ∈ reg.list_enabled, p.priority_rank ≤ q.priority_rank := by
  intro q hq
  have hsorted : List.Sorted rankLe (p :: ps) := by
    have := List.sorted_insertionSort rankLe reg.list_enabled
    rwa [show List.insertionSort rankLe reg.list_enabled = reg.get_ranked from rfl, hr] at this
  have hmem : q ∈ p :: ps := by
    have hperm := List.perm_insertionSort rankLe reg.list_enabled
    rw [show List.insertionSort rankLe reg.list_enabled = reg.get_ranked from rfl, hr] at hperm
    exact hperm.mem_iff.mpr hq
  rcases List.mem_cons.mp hmem with h | h
  · rw [h]
  · exact List.rel_of_sorted_cons hsorted q h

/-- C1: `route(category, priority)` returns the first static-table
candidate whose registry profile exists and is enabled; with no enabled
static candidate it returns the id of the head of `get_ranked()`, which
has minimal `priority_rank` among all enabled profiles; in particular with
two enabled workers of ranks 1 and 2 in the coding table it returns the
first, and with the first disabled it returns the second. -/
theorem claim_C1_route_static_then_ranked (reg : Registry) (category priority : String) :
    (∀ w, List.find? (fun aid => enabledIn reg aid) (staticCandidates category) = some w →
        route reg category priority = Except.ok w) ∧
    (List.find? (fun aid => enabledIn reg aid) (staticCandidates category) = none →
      ∀ p ps, reg.get_ranked = p :: ps →
        route reg category priority = Except.ok p.id ∧
        ∀ q ∈ reg.list_enabled, p.priority_rank ≤ q.priority_rank) ∧
    route [wCodex, wClaude] "coding" "medium" = Except.ok "openai_codex" ∧
    route [wCodexOff, wClaude] "coding" "medium" = Except.ok "claude_code" := by
  refine ⟨fun w hf => route_of_find_some hf, fun hf p ps hr => ⟨route_of_find_none hf hr, ranked_head_min hr⟩, rfl, rfl⟩

/-- Witness for C1: both routing branches exercised on concrete
registries. -/
theorem claim_C1_witness :
    route [wCodex, wClaude] "coding" "medium" = Except.ok "openai_codex" ∧
    route [wZeta] "coding" "medium" = Except.ok "zeta_agent" :=
  ⟨(claim_C1_route_static_then_ranked [wCodex, wClaude] "coding" "medium").1 "openai_codex" rfl,
   ((claim_C1_route_static_then_ranked [wZeta] "coding" "medium").2.1 rfl wZeta [] rfl).1⟩

/-! ### Stage execution lemmas -/

theorem execStage_nil (reg : Registry) (s : PState) :
    execStage reg s [] = Except.ok (s, []) := rfl

theorem execStage_cons_blocked {reg : Registry} {s : PState} {t0 : Task} {rest : List Task}
    (h : check_dependencies s.queue (fetchTask s.queue t0) = false) :
    execStage reg s (t0 :: rest) =
      match execStage reg
          { s with queue := updateTask s.queue (blockTask (fetchTask s.queue t0)) } rest with
      | Except.ok (s2, res) => Except.ok (s2, blockTask (fetchTask s.queue t0) :: res)
      | Except.error e => Except.error e := by
  simp only [execStage]
  rw [h]
  rfl

theorem execStage_cons_err {reg : Registry} {s : PState} {t0 : Task} {rest : List Task}
    {e : String}
    (hdep : check_dependencies s.queue (fetchTask s.queue t0) = true)
    (ha : assignAgent reg (fetchTask s.queue t0) = Except.error e) :
    execStage reg s (t0 :: rest) = Except.error e := by
  simp only [execStage]
  rw [hdep, ha]
  rfl

theorem execStage_cons_ok {reg : Registry} {s : PState} {t0 : Task} {rest : List Task}
    {t1 : Task}
    (hdep : check_dependencies s.queue (fetchTask s.queue t0) = true)
    (ha : assignAgent reg (fetchTask s.queue t0) = Except.ok t1) :
    execStage reg s (t0 :: rest) =
      match execStage reg
          { queue := updateTask s.queue (processReady t1).1
            log := s.log ++ (processReady t1).2 } rest with
      | Except.ok (s2, res) => Except.ok (s2, (processReady t1).1 :: res)
      | Except.error e => Except.error e := by
  simp only [execStage]
  rw [hdep, ha]
  rfl

theorem execStage_length {reg : Registry} :
    ∀ {stage : List Task} {s s2 : PState} {res : List Task},
      execStage reg s stage = Except.ok (s2, res) → res.length = stage.length := by
  intro stage
  induction stage with
  | nil =>
      intro s s2 res h
      rw [execStage_nil] at h
      cases h
      rfl
  | cons t0 rest ih =>
      intro s s2 res h
      by_cases hdep : check_dependencies s.queue (fetchTask s.queue t0) = true
      · cases ha : assignAgent reg (fetchTask s.queue t0) with
        | error e =>
            rw [execStage_cons_err hdep ha] at h
            cases h
        | ok t1 =>
            rw [execStage_cons_ok hdep ha] at h
            cases hrec : execStage reg
                { queue := updateTask s.queue (processReady t1).1
                  log := s.log ++ (processReady t1).2 } rest with
            | error e => rw [hrec] at h; cases h
            | ok p =>
                obtain ⟨s3, res'⟩ := p
                rw [hrec] at h
                cases h
                simp [ih hrec]
      · rw [execStage_cons_blocked (Bool.not_eq_true _ ▸ hdep)] at h
        cases hrec : execStage reg
            { s with queue := updateTask s.queue (blockTask (fetchTask s.queue t0)) } rest with
        | error e => rw [hrec] at h; cases h
        | ok p =>
            obtain ⟨s3, res'⟩ := p
            rw [hrec] at h
            cases h
            simp [ih hrec]

theorem execStage_status {reg : Registry} :
    ∀ {stage : List Task} {s s2 : PState} {res : List Task},
      execStage reg s stage = Except.ok (s2, res) →
      ∀ u ∈ res, u.status = TaskStatus.completed ∨ u.status = TaskStatus.pending := by
  intro stage
  induction stage with
  | nil =>
      intro s s2 res h
      rw [execStage_nil] at h
      cases h
      intro u hu
      cases hu
  | cons t0 rest ih =>
      intro s s2 res h
      by_cases hdep : check_dependencies s.queue (fetchTask s.queue t0) = true
      · cases ha : assignAgent reg (fetchTask s.queue t0) with
        | error e =>
            rw [execStage_cons_err hdep ha] at h
            cases h
        | ok t1 =>
            rw [execStage_cons_ok hdep ha] at h
            cases hrec : execStage reg
                { queue := updateTask s.queue (processReady t1).1
                  log := s.log ++ (processReady t1).2 } rest with
            | error e => rw [hrec] at h; cases h
            | ok p =>
                obtain ⟨s3, res'⟩ := p
                rw [hrec] at h
                cases h
                intro u hu
                rcases List.mem_cons.mp hu with h' | h'
                · left; rw [h']; rfl
                · exact ih hrec u h'
      · rw [execStage_cons_blocked (Bool.not_eq_true _ ▸ hdep)] at h
        cases hrec : execStage reg
            { s with queue := updateTask s.queue (blockTask (fetchTask s.queue t0)) } rest with
        | error e => rw [hrec] at h; cases h
        | ok p =>
            obtain ⟨s3, res'⟩ := p
            rw [hrec] at h
            cases h
            intro u hu
            rcases List.mem_cons.mp hu with h' | h'
            · right; rw [h']; rfl
            · exact ih hrec u h'

theorem execStage_log_count {reg : Registry} :
    ∀ {stage : List Task} {s s2 : PState} {res : List Task},
      execStage reg s stage = Except.ok (s2, res) →
      s2.log.length =
        s.log.length +
          2 * (res.filter (fun u => u.status == TaskStatus.completed)).length := by
  intro stage
  induction stage with
  | nil =>
      intro s s2 res h
      rw [execStage_nil] at h
      cases h
      rfl
  | cons t0 rest ih =>
      intro s s2 res h
      by_cases hdep : check_dependencies s.queue (fetchTask s.queue t0) = true
      · cases ha : assignAgent reg (fetchTask s.queue t0) with
        | error e =>
            rw [execStage_cons_err hdep ha] at h
            cases h
        | ok t1 =>
            rw [execStage_cons_ok hdep ha] at h
            cases hrec : execStage reg
                { queue := updateTask s.queue (processReady t1).1
                  log := s.log ++ (processReady t1).2 } rest with
            | error e => rw [hrec] at h; cases h
            | ok p =>
                obtain ⟨s3, res'⟩ := p
                rw [hrec] at h
                cases h
                have hlen := ih hrec
                simp only [List.length_append] at hlen
                have hcomp : ((processReady t1).1.status == TaskStatus.completed) = true := rfl
                simp only [List.filter_cons, hcomp, if_pos, List.length_cons]
                have hev : (processReady t1).2.length = 2 := rfl
                rw [hlen, hev]
                ring
      · rw [execStage_cons_blocked (Bool.not_eq_true _ ▸ hdep)] at h
        cases hrec : execStage reg
            { s with queue := updateTask s.queue (blockTask (fetchTask s.queue t0)) } rest with
        | error e => rw [hrec] at h; cases h
        | ok p =>
            obtain ⟨s3, res'⟩ := p
            rw [hrec] at h
            cases h
            have hlen := ih hrec
            have hpend : ((blockTask (fetchTask s.queue t0)).status == TaskStatus.completed) = false := rfl
            simp only [List.filter_cons, hpend, if_neg]
            simpa using hlen

theorem execStage_log_mono {reg : Registry} :
    ∀ {stage : List Task} {s s2 : PState} {res : List Task},
      execStage reg s stage = Except.ok (s2, res) →
      ∃ tail, s2.log = s.log ++ tail := by
  intro stage
  induction stage with
  | nil =>
      intro s s2 res h
      rw [execStage_nil] at h
      cases h
      exact ⟨[], by simp⟩
  | cons t0 rest ih =>
      intro s s2 res h
      by_cases hdep : check_dependencies s.queue (fetchTask s.queue t0) = true
      · cases ha : assignAgent reg (fetchTask s.queue t0) with
        | error e =>
            rw [execStage_cons_err hdep ha] at h
            cases h
        | ok t1 =>
            rw [execStage_cons_ok hdep ha] at h
            cases hrec : execStage reg
                { queue := updateTask s.queue (processReady t1).1
                  log := s.log ++ (processReady t1).2 } rest with
            | error e => rw [hrec] at h; cases h
            | ok p =>
                obtain ⟨s3, res'⟩ := p
                rw [hrec] at h
                cases h
                obtain ⟨tail, htail⟩ := ih hrec
                exact ⟨(processReady t1).2 ++ tail, by simp [htail]⟩
      · rw [execStage_cons_blocked (Bool.not_eq_true _ ▸ hdep)] at h
        cases hrec : execStage reg
            { s with queue := updateTask s.queue (blockTask (fetchTask s.queue t0)) } rest with
        | error e => rw [hrec] at h; cases h
        | ok p =>
            obtain ⟨s3, res'⟩ := p
            rw [hrec] at h
            cases h
            obtain ⟨tail, htail⟩ := ih hrec
            exact ⟨tail, htail⟩

theorem assignAgent_fields {reg : Registry} {t t1 : Task}
    (h : assignAgent reg t = Except.ok t1) :
    t1.retry_count = t.retry_count ∧ t1.error_log = t.error_log ∧
      t1.id = t.id ∧ t1.dependencies = t.dependencies := by
  unfold assignAgent at h
  by_cases ht : truthy t.assigned_agent = true
  · rw [if_pos ht] at h
    cases h
    exact ⟨rfl, rfl, rfl, rfl⟩
  · rw [if_neg ht] at h
    cases hr : route reg t.category t.priority with
    | ok aid => rw [hr] at h; cases h; exact ⟨rfl, rfl, rfl, rfl⟩
    | error e => rw [hr] at h; cases h

/-- Concrete task used in examples: no dependencies, no pre-assigned
agent, coding category. -/
def tskA : Task := create_task "a1" "taskA" "coding" "medium" none []

/-- Concrete task used in examples: a sibling of `tskA`. -/
def tskB : Task := create_task "b1" "taskB" "coding" "medium" none []

/-- Concrete task used in examples: depends on a task id that no queue
task carries. -/
def tskD : Task := create_task "d1" "taskD" "coding" "medium" none ["nope"]

/-- `tskA` right after routing assigned it the first coding candidate. -/
def tskAAssigned : Task := { tskA with assigned_agent := some "openai_codex" }

/-- `tskA` as `execute_stage` leaves it: routed and COMPLETED. -/
def tskADone : Task := { tskAAssigned with status := TaskStatus.completed }

/-- C2: a task whose dependencies are all COMPLETED and whose routing
succeeds finishes `execute_stage` with status COMPLETED, unchanged
`retry_count` and unchanged `error_log`; the try body makes no fallible
call, so no result of `execute_stage` ever carries status FAILED or
REMEDIATION. -/
theorem claim_C2_try_body_infallible (reg : Registry) (s : PState) (t0 : Task)
    (rest : List Task) (t1 : Task) (s2 : PState) (res : List Task)
    (hdep : check_dependencies s.queue (fetchTask s.queue t0) = true)
    (ha : assignAgent reg (fetchTask s.queue t0) = Except.ok t1)
    (hex : execStage reg s (t0 :: rest) = Except.ok (s2, res)) :
    res.head? = some (processReady t1).1 ∧
    (processReady t1).1.status = TaskStatus.completed ∧
    (processReady t1).1.retry_count = (fetchTask s.queue t0).retry_count ∧
    (processReady t1).1.error_log = (fetchTask s.queue t0).error_log ∧
    (∀ u ∈ res, u.status = TaskStatus.completed ∨ u.status = TaskStatus.pending) := by
  have hstatus := execStage_status hex
  rw [execStage_cons_ok hdep ha] at hex
  cases hrec : execStage reg
      { queue := updateTask s.queue (processReady t1).1
        log := s.log ++ (processReady t1).2 } rest with
  | error e => rw [hrec] at hex; cases hex
  | ok p =>
      obtain ⟨s3, res'⟩ := p
      rw [hrec] at hex
      cases hex
      obtain ⟨hrc, herr, _, _⟩ := assignAgent_fields ha
      exact ⟨rfl, rfl, hrc, herr, hstatus⟩

/-- Witness for C2 on a concrete one-task stage. -/
theorem claim_C2_witness :
    ([tskADone] : List Task).head? = some (processReady tskAAssigned).1 :=
  (claim_C2_try_body_infallible [wCodex] { queue := [tskA], log := [] } tskA []
    tskAAssigned _ _ rfl rfl rfl).1

/-- C5: `execute_stage` moves a task to IN_PROGRESS only when every
dependency id resolves to a COMPLETED queue task; otherwise the task ends
the stage PENDING with one error-log entry recording the blocking
dependency ids, and the executor still processes every remaining task of
the stage; every task built by `create_task` starts PENDING. -/
theorem claim_C5_dependency_gate (reg : Registry) (s : PState) (t0 : Task)
    (rest : List Task) :
    (∀ task_id title category priority assigned deps,
      (create_task task_id title category priority assigned deps).status =
        TaskStatus.pending) ∧
    (check_dependencies s.queue (fetchTask s.queue t0) = false →
      ∀ s2 res, execStage reg s (t0 :: rest) = Except.ok (s2, res) →
        res.head? = some (blockTask (fetchTask s.queue t0)) ∧
        (blockTask (fetchTask s.queue t0)).status = TaskStatus.pending ∧
        (blockTask (fetchTask s.queue t0)).error_log =
          (fetchTask s.queue t0).error_log ++ [blockedMsg (fetchTask s.queue t0)] ∧
        res.length = rest.length + 1) ∧
    (check_dependencies s.queue (fetchTask s.queue t0) = true →
      ∀ t1, assignAgent reg (fetchTask s.queue t0) = Except.ok t1 →
      ∀ s2 res, execStage reg s (t0 :: rest) = Except.ok (s2, res) →
        ∃ tail, s2.log = s.log ++
          mkEvent "task_started" { t1 with status := TaskStatus.in_progress } ::
          mkEvent "task_completed" { t1 with status := TaskStatus.completed } :: tail) := by
  refine ⟨fun _ _ _ _ _ _ => rfl, ?_, ?_⟩
  · intro hdep s2 res hex
    have hlen := execStage_length hex
    rw [execStage_cons_blocked hdep] at hex
    cases hrec : execStage reg
        { s with queue := updateTask s.queue (blockTask (fetchTask s.queue t0)) } rest with
    | error e => rw [hrec] at hex; cases hex
    | ok p =>
        obtain ⟨s3, res'⟩ := p
        rw [hrec] at hex
        cases hex
        exact ⟨rfl, rfl, rfl, by simpa using hlen⟩
  · intro hdep t1 ha s2 res hex
    rw [execStage_cons_ok hdep ha] at hex
    cases hrec : execStage reg
        { queue := updateTask s.queue (processReady t1).1
          log := s.log ++ (processReady t1).2 } rest with
    | error e => rw [hrec] at hex; cases hex
    | ok p =>
        obtain ⟨s3, res'⟩ := p
        rw [hrec] at hex
        cases hex
        obtain ⟨tail, htail⟩ := execStage_log_mono hrec
        refine ⟨tail, ?_⟩
        rw [htail]
        simp [processReady, mkEvent]

/-- Witness for C5: the blocked branch on a queue without the dependency,
and the started/completed events on a routable task. -/
theorem claim_C5_witness :
    ([blockTask tskD] : List Task).head? = some (blockTask tskD) ∧
    ∃ tail,
      ({ queue := [tskADone],
         log := [mkEvent "task_started" { tskAAssigned with status := TaskStatus.in_progress },
                 mkEvent "task_completed" tskADone] } : PState).log =
        ([] : List Event) ++
          mkEvent "task_started" { tskAAssigned with status := TaskStatus.in_progress } ::
          mkEvent "task_completed" { tskAAssigned with status := TaskStatus.completed } :: tail :=
  ⟨((claim_C5_dependency_gate [wCodex] { queue := [tskD], log := [] } tskD []).2.1
      rfl _ _ rfl).1,
   (claim_C5_dependency_gate [wCodex] { queue := [tskA], log := [] } tskA []).2.2
      rfl tskAAssigned rfl _ _ rfl⟩

/-- Counterexample to C7 as stated: a stage with one routable task appends
two audit events (`task_started` and `task_completed`), not one. -/
theorem claim_C7_counterexample :
    ((execStage [wCodex] { queue := [tskA], log := [] } [tskA]).toOption.map
        (fun p => p.1.log.length)) = some 2 ∧ (2 : Nat) ≠ 1 :=
  ⟨rfl, by decide⟩

/-- C7 (amended): one `execute_stage` call on a stage of N tasks returns N
per-task results and appends exactly two audit events for every task that
passed its dependency check (all of which end COMPLETED) and none for a
blocked task, i.e. `2 * C` events where C is the number of COMPLETED
results. -/
theorem claim_C7_two_events_per_executed_task (reg : Registry)
    (stage : List Task) (s s2 : PState) (res : List Task)
    (hex : execStage reg s stage = Except.ok (s2, res)) :
    res.length = stage.length ∧
    s2.log.length =
      s.log.length +
        2 * (res.filter (fun u => u.status == TaskStatus.completed)).length :=
  ⟨execStage_length hex, execStage_log_count hex⟩

/-- Witness for C7 (amended): a two-task stage with one blocked task
appends two events. -/
theorem claim_C7_witness :
    ([tskADone, blockTask tskD] : List Task).length = 2 ∧
    (([mkEvent "task_started" { tskAAssigned with status := TaskStatus.in_progress },
       mkEvent "task_completed" tskADone] : List Event)).length = 0 + 2 *
      (([tskADone, blockTask tskD] : List Task).filter
        (fun u => u.status == TaskStatus.completed)).length :=
  claim_C7_two_events_per_executed_task [wCodex]
    [tskA, tskD] { queue := [tskA, tskD], log := [] } _ _ rfl

/-- C10: a dependency id matching no queue task fails the dependency
check exactly as an uncompleted dependency does, so the task stays
PENDING with the standard blocked entry and the stage goes on to the next
task; no distinct error is raised for the dangling id. -/
theorem claim_C10_dangling_dependency (reg : Registry) (s : PState) (t0 : Task)
    (rest : List Task) (d : String)
    (hd : d ∈ (fetchTask s.queue t0).dependencies)
    (hmiss : List.find? (fun u => u.id == d) s.queue = none) :
    check_dependencies s.queue (fetchTask s.queue t0) = false ∧
    (∀ q2 u, List.find? (fun v => v.id == d) q2 = some u →
        (u.status == TaskStatus.completed) = false →
        check_dependencies q2 (fetchTask s.queue t0) = false) ∧
    execStage reg s (t0 :: rest) =
      match execStage reg
          { s with queue := updateTask s.queue (blockTask (fetchTask s.queue t0)) } rest with
      | Except.ok (s2, res) => Except.ok (s2, blockTask (fetchTask s.queue t0) :: res)
      | Except.error e => Except.error e := by
  have hfail : check_dependencies s.queue (fetchTask s.queue t0) = false := by
    cases hall : check_dependencies s.queue (fetchTask s.queue t0) with
    | false => rfl
    | true =>
        exfalso
        have := List.all_eq_true.mp hall d hd
        rw [hmiss] at this
        simp at this
  refine ⟨hfail, ?_, execStage_cons_blocked hfail⟩
  intro q2 u hfind hst
  cases hall : check_dependencies q2 (fetchTask s.queue t0) with
  | false => rfl
  | true =>
      exfalso
      have := List.all_eq_true.mp hall d hd
      rw [hfind] at this
      simp [hst] at this

/-- Witness for C10 on a concrete queue lacking the dependency id. -/
theorem claim_C10_witness :
    check_dependencies ([tskA] : List Task) (fetchTask [tskA] tskD) = false :=
  (claim_C10_dangling_dependency [wCodex] { queue := [tskA], log := [] } tskD []
    "nope" (by decide) rfl).1

/-- C3: the FAILED → REMEDIATION transition fires exactly when the bumped
retry count is below `max_retries` and the fallback list is non-empty; the
next agent is `fallback_agents[min(retry_count - 1, len - 1)]` for the
bumped retry count, and once the retry count exceeds the list length the
assignment is the last fallback element — clamped, with no index error and
no wraparound. -/
theorem claim_C3_fallback_clamped (t : Task) (err : String) :
    ((t.retry_count + 1 < t.max_retries ∧ t.fallback_agents ≠ []) →
      (handleFailure t err).1.status = TaskStatus.remediation ∧
      (handleFailure t err).1.retry_count = t.retry_count + 1 ∧
      (handleFailure t err).1.assigned_agent =
        some (t.fallback_agents.getD
          (min (t.retry_count + 1 - 1) (t.fallback_agents.length - 1)) "") ∧
      (t.fallback_agents.length < t.retry_count + 1 →
        (handleFailure t err).1.assigned_agent = t.fallback_agents.getLast?)) ∧
    (¬(t.retry_count + 1 < t.max_retries ∧ t.fallback_agents ≠ []) →
      (handleFailure t err).1.status = TaskStatus.failed) := by
  constructor
  · intro h
    unfold handleFailure
    rw [if_pos h]
    refine ⟨rfl, rfl, rfl, ?_⟩
    intro hlen
    have hne : t.fallback_agents ≠ [] := h.2
    have hpos : 0 < t.fallback_agents.length := List.length_pos.mpr hne
    have hidx : t.fallback_agents.length - 1 < t.fallback_agents.length :=
      Nat.sub_lt hpos Nat.one_pos
    have hmin : min (t.retry_count + 1 - 1) (t.fallback_agents.length - 1) =
        t.fallback_agents.length - 1 := by
      apply Nat.min_eq_right
      omega
    simp only [Nat.add_sub_cancel] at hmin ⊢
    rw [hmin, List.getD_eq_getElem?_getD, List.getElem?_eq_getElem hidx,
      List.getLast?_eq_getElem?, List.getElem?_eq_getElem hidx]
    rfl
  · intro h
    unfold handleFailure
    rw [if_neg h]

/-- Witness for C3: three fallback agents, fourth failure (bumped retry
count 4) reuses the last fallback. -/
theorem claim_C3_witness :
    (handleFailure
        { tskA with fallback_agents := ["f1", "f2", "f3"], retry_count := 3,
                    max_retries := 9 } "boom").1.assigned_agent =
      some "f3" := by
  have h := (claim_C3_fallback_clamped
      { tskA with fallback_agents := ["f1", "f2", "f3"], retry_count := 3,
                  max_retries := 9 } "boom").1 (by constructor <;> simp)
  rw [h.2.2.2 (by simp)]
  rfl

theorem addEmergency_eq_filter (reg : Registry) :
    ∀ (chain : List String), chain.Nodup → ∀ cands : List String,
      addEmergency reg cands chain =
        cands ++ chain.filter (fun fa => decide (fa ∉ cands) && enabledIn reg fa) := by
  intro chain
  induction chain with
  | nil => intro _ cands; simp [addEmergency]
  | cons fa rest ih =>
      intro hnd cands
      obtain ⟨hfa, hrest⟩ := List.nodup_cons.mp hnd
      by_cases hmem : fa ∈ cands
      · rw [addEmergency, if_pos hmem, ih hrest cands]
        have hne : ¬(decide (fa ∉ cands) && enabledIn reg fa) = true := by
          simp [hmem]
        rw [@List.filter_cons_of_neg String
          (fun x => decide (x ∉ cands) && enabledIn reg x) fa rest hne]
      · by_cases he : enabledIn reg fa = true
        · rw [addEmergency, if_neg hmem, if_pos he, ih hrest (cands ++ [fa])]
          have hcongr : rest.filter
                (fun x => decide (x ∉ cands ++ [fa]) && enabledIn reg x) =
              rest.filter (fun x => decide (x ∉ cands) && enabledIn reg x) := by
            apply List.filter_congr
            intro x hx
            have hne : x ≠ fa := fun hxe => hfa (hxe ▸ hx)
            simp [List.mem_append, hne]
          have hpfa : (decide (fa ∉ cands) && enabledIn reg fa) = true := by
            simp [hmem, he]
          rw [hcongr, @List.filter_cons_of_pos String
            (fun x => decide (x ∉ cands) && enabledIn reg x) fa rest hpfa]
          simp
        · rw [addEmergency, if_neg hmem, if_neg he, ih hrest cands]
          have hne : ¬(decide (fa ∉ cands) && enabledIn reg fa) = true := by
            simp [Bool.eq_false_iff.mpr he]
          rw [@List.filter_cons_of_neg String
            (fun x => decide (x ∉ cands) && enabledIn reg x) fa rest hne]

/-- Counterexample to C8 as stated: with one enabled worker that is
neither a static candidate of the queried category nor an emergency
agent, `route_with_fallback` returns the empty sequence. -/
theorem claim_C8_counterexample :
    route_with_fallback [wZeta] "nonexistent" = [] ∧
    wZeta ∈ ([wZeta] : Registry) ∧ wZeta.enabled = true :=
  ⟨rfl, List.mem_singleton.mpr rfl, rfl⟩

/-- C8 (amended): `route_with_fallback(category)` returns the static
candidate list with each emergency agent appended when not already a
candidate, registered and enabled; the result is non-empty whenever the
category has static candidates or some emergency-chain agent is
registered and enabled — but not merely whenever any enabled worker
exists system-wide. -/
theorem claim_C8_fallback_sequence (reg : Registry) (category : String) :
    route_with_fallback reg category =
      staticCandidates category ++
        EMERGENCY_FALLBACK_CHAIN.filter
          (fun fa => decide (fa ∉ staticCandidates category) && enabledIn reg fa) ∧
    (staticCandidates category ≠ [] ∨
        (∃ fa ∈ EMERGENCY_FALLBACK_CHAIN, enabledIn reg fa = true) →
      route_with_fallback reg category ≠ []) := by
  have heq := addEmergency_eq_filter reg EMERGENCY_FALLBACK_CHAIN (by decide)
    (staticCandidates category)
  refine ⟨heq, fun h => ?_⟩
  rcases h with hc | ⟨fa, hfa, he⟩
  · rw [show route_with_fallback reg category =
        addEmergency reg (staticCandidates category) EMERGENCY_FALLBACK_CHAIN from rfl, heq]
    simp [hc]
  · by_cases hc : staticCandidates category = []
    · rw [show route_with_fallback reg category =
          addEmergency reg (staticCandidates category) EMERGENCY_FALLBACK_CHAIN from rfl,
        heq]
      have hmem : fa ∈ List.filter
          (fun fa => decide (fa ∉ staticCandidates category) && enabledIn reg fa)
          EMERGENCY_FALLBACK_CHAIN := by
        rw [List.mem_filter]
        exact ⟨hfa, by simp [hc, he]⟩
      exact List.append_ne_nil_of_right_ne_nil _ (List.ne_nil_of_mem hmem)
    · rw [show route_with_fallback reg category =
          addEmergency reg (staticCandidates category) EMERGENCY_FALLBACK_CHAIN from rfl, heq]
      simp [hc]

/-- Witness for C8 (amended): with only an emergency agent enabled and an
unknown category, the sequence is that one emergency agent. -/
theorem claim_C8_witness :
    route_with_fallback
        [{ id := "groq", name := "Groq", enabled := true, priority_rank := 9 }]
        "nonexistent" ≠ [] :=
  (claim_C8_fallback_sequence
      [{ id := "groq", name := "Groq", enabled := true, priority_rank := 9 }]
      "nonexistent").2
    (Or.inr ⟨"groq", by decide, rfl⟩)

theorem bumpCount_sum (m : List (String × Nat)) (k : String) :
    ((bumpCount m k).map Prod.snd).sum = (m.map Prod.snd).sum + 1 := by
  induction m with
  | nil => simp [bumpCount]
  | cons kv rest ih =>
      obtain ⟨k', v⟩ := kv
      by_cases h : (k' == k) = true
      · simp [bumpCount, h]
        omega
      · simp only [bumpCount, Bool.not_eq_true] at h ⊢
        rw [h]
        simp [ih]
        omega

theorem utilStep_sum (m : List (String × Nat)) (t : Task) :
    ((utilStep m t).map Prod.snd).sum =
      (m.map Prod.snd).sum + (if truthy t.assigned_agent then 1 else 0) := by
  unfold utilStep truthy
  cases t.assigned_agent with
  | none => simp
  | some a =>
      by_cases h : (a == "") = true
      · simp [h]
      · simp only [Bool.not_eq_true] at h
        simp [h, bumpCount_sum]

theorem foldl_utilStep_sum :
    ∀ (tasks : List Task) (m : List (String × Nat)),
      ((tasks.foldl utilStep m).map Prod.snd).sum =
        (m.map Prod.snd).sum +
          (tasks.filter (fun t => truthy t.assigned_agent)).length := by
  intro tasks
  induction tasks with
  | nil => intro m; simp
  | cons t rest ih =>
      intro m
      rw [List.foldl_cons, ih (utilStep m t), utilStep_sum]
      by_cases h : truthy t.assigned_agent = true
      · rw [@List.filter_cons_of_pos Task (fun t => truthy t.assigned_agent) t rest h]
        simp [h]
        omega
      · rw [@List.filter_cons_of_neg Task (fun t => truthy t.assigned_agent) t rest h]
        simp only [Bool.not_eq_true] at h
        simp [h]

theorem buildUtil_sum (tasks : List Task) :
    ((buildUtil tasks).map Prod.snd).sum =
      (tasks.filter (fun t => truthy t.assigned_agent)).length := by
  unfold buildUtil
  rw [foldl_utilStep_sum]
  simp

/-- C9: for every completed `run()`, the values of `agent_utilization` sum
exactly to the number of result tasks (each stage-result occurrence
counted once) whose assigned agent id is truthy, i.e. non-empty. -/
theorem claim_C9_utilization_sum (reg : Registry) (name : String) (s : PState)
    (stages : List (List Task)) (r : PipelineResult)
    (h : run reg name s stages = Except.ok r) :
    ∃ s1 all, runStages reg s stages = Except.ok (s1, all) ∧
      r.agent_utilization = buildUtil all ∧
      r.total_tasks = all.length ∧
      ((r.agent_utilization.map Prod.snd).sum =
        (all.filter (fun t => truthy t.assigned_agent)).length) := by
  unfold run at h
  cases hrs : runStages reg s stages with
  | error e => rw [hrs] at h; cases h
  | ok p =>
      obtain ⟨s1, all⟩ := p
      rw [hrs] at h
      cases h
      exact ⟨s1, all, rfl, rfl, rfl, buildUtil_sum all⟩

/-- The audit event logged when `tskA` is started. -/
def evStartedA : Event :=
  mkEvent "task_started" { tskAAssigned with status := TaskStatus.in_progress }

/-- The audit event logged when `tskA` completes. -/
def evCompletedA : Event := mkEvent "task_completed" tskADone

/-- The concrete `PipelineResult` of running a one-stage, one-task
pipeline with `wCodex` registered. -/
def resultA : PipelineResult :=
  { pipeline_name := "P"
    total_tasks := 1
    completed := 1
    failed := 0
    in_review := 0
    execution_log := [evStartedA, evCompletedA]
    agent_utilization := [("openai_codex", 1)] }

/-- Witness for C9 on a concrete one-stage pipeline. -/
theorem claim_C9_witness :
    ∃ s1 all,
      runStages [wCodex] { queue := [tskA], log := [] } [[tskA]] =
        Except.ok (s1, all) ∧
      resultA.agent_utilization = buildUtil all ∧
      resultA.total_tasks = all.length ∧
      ((resultA.agent_utilization.map Prod.snd).sum =
        (all.filter (fun t => truthy t.assigned_agent)).length) :=
  claim_C9_utilization_sum [wCodex] "P" { queue := [tskA], log := [] }
    [[tskA]] resultA rfl

/-! ### Router failure propagation -/

/-- A task that must be routed as soon as it is reached: no dependencies
and no truthy assigned agent. -/
def bareP (t : Task) : Prop :=
  t.dependencies = [] ∧ truthy t.assigned_agent = false

/-- Every queue entry carrying the given id is bare. -/
def bareQ (q : List Task) (tid : String) : Prop :=
  ∀ u ∈ q, u.id = tid → bareP u

instance (t : Task) : Decidable (bareP t) := by
  unfold bareP
  infer_instance

theorem check_of_no_deps (q : List Task) {t : Task} (h : t.dependencies = []) :
    check_dependencies q t = true := by
  unfold check_dependencies
  rw [h]
  rfl

theorem fetch_id (q : List Task) (t0 : Task) : (fetchTask q t0).id = t0.id := by
  unfold fetchTask
  cases hf : List.find? (fun u => u.id == t0.id) q with
  | none => rfl
  | some u =>
      have := List.find?_some hf
      simpa using this

theorem assignAgent_error_of_no_enabled {reg : Registry} {t : Task}
    (hreg : no_enabled reg) (ht : truthy t.assigned_agent = false) :
    ∃ e, assignAgent reg t = Except.error e := by
  obtain ⟨e, he⟩ := (route_error_iff reg t.category t.priority).mpr hreg
  refine ⟨e, ?_⟩
  unfold assignAgent
  rw [if_neg (by simp [ht]), he]

theorem bareP_fetch {q : List Task} {tid : String} {t0 : Task}
    (hq : bareQ q tid) (hid : t0.id = tid) (hb : bareP t0) :
    bareP (fetchTask q t0) := by
  unfold fetchTask
  cases hf : List.find? (fun u => u.id == t0.id) q with
  | none => exact hb
  | some u =>
      have hu : u ∈ q := List.mem_of_find?_eq_some hf
      have huid : u.id = t0.id := by simpa using List.find?_some hf
      exact hq u hu (huid.trans hid)

theorem fetch_found_of_mem {q : List Task} {t0 v : Task}
    (hv : v ∈ q) (hid : v.id = t0.id) :
    ∃ w, w ∈ q ∧ w.id = t0.id ∧ fetchTask q t0 = w := by
  have hsome : (List.find? (fun u => u.id == t0.id) q).isSome := by
    rw [List.find?_isSome]
    exact ⟨v, hv, by simp [hid]⟩
  obtain ⟨w, hw⟩ := Option.isSome_iff_exists.mp hsome
  refine ⟨w, List.mem_of_find?_eq_some hw, by simpa using List.find?_some hw, ?_⟩
  unfold fetchTask
  rw [hw]
  rfl

theorem bareQ_update {q : List Task} {tid : String} (hq : bareQ q tid)
    {new : Task} (hcase : new.id = tid → ∀ v ∈ q, v.id ≠ tid) :
    bareQ (updateTask q new) tid := by
  intro u hu huid
  obtain ⟨v, hv, hveq⟩ := List.mem_map.mp hu
  by_cases hvid : (v.id == new.id) = true
  · rw [if_pos hvid] at hveq
    subst hveq
    exact absurd ((eq_of_beq hvid).trans huid) (hcase huid v hv)
  · rw [if_neg hvid] at hveq
    subst hveq
    exact hq v hv huid

theorem execStage_error_of_bare_head {reg : Registry} {s : PState} {t0 : Task}
    {rest : List Task} (hreg : no_enabled reg)
    (hb : bareP (fetchTask s.queue t0)) :
    ∃ e, execStage reg s (t0 :: rest) = Except.error e := by
  obtain ⟨e, he⟩ := assignAgent_error_of_no_enabled hreg hb.2
  exact ⟨e, execStage_cons_err (check_of_no_deps s.queue hb.1) he⟩

theorem fetched_bare_of_mem {q : List Task} {tid : String} {t0 v : Task}
    (hq : bareQ q tid) (hv : v ∈ q) (hvid : v.id = tid) (ht0 : t0.id = tid) :
    bareP (fetchTask q t0) := by
  obtain ⟨w, hwmem, hwid, hfw⟩ := fetch_found_of_mem hv (hvid.trans ht0.symm)
  rw [hfw]
  exact hq w hwmem (hwid.trans ht0)

theorem bareQ_after_ok {reg : Registry} {q : List Task} {tid : String} {t0 t1 : Task}
    (hreg : no_enabled reg) (hq : bareQ q tid)
    (ha : assignAgent reg (fetchTask q t0) = Except.ok t1) :
    bareQ (updateTask q (processReady t1).1) tid := by
  apply bareQ_update hq
  intro hnew v hv hvid
  have ht2id : (processReady t1).1.id = t0.id := by
    show t1.id = t0.id
    rw [(assignAgent_fields ha).2.2.1, fetch_id]
  have ht0 : t0.id = tid := by rw [← ht2id]; exact hnew
  have hbare := fetched_bare_of_mem hq hv hvid ht0
  obtain ⟨e, he⟩ := assignAgent_error_of_no_enabled hreg hbare.2
  rw [he] at ha
  cases ha

theorem bareQ_after_blocked {q : List Task} {tid : String} {t0 : Task}
    (hq : bareQ q tid)
    (hdep : ¬check_dependencies q (fetchTask q t0) = true) :
    bareQ (updateTask q (blockTask (fetchTask q t0))) tid := by
  apply bareQ_update hq
  intro hnew v hv hvid
  have ht0 : t0.id = tid := by
    have hbid : (blockTask (fetchTask q t0)).id = t0.id := fetch_id q t0
    rw [← hbid]
    exact hnew
  have hbare := fetched_bare_of_mem hq hv hvid ht0
  exact absurd (check_of_no_deps q hbare.1) hdep

theorem execStage_preserves_bareQ {reg : Registry} (hreg : no_enabled reg) :
    ∀ {stage : List Task} {s s2 : PState} {res : List Task} {tid : String},
      execStage reg s stage = Except.ok (s2, res) →
      bareQ s.queue tid → bareQ s2.queue tid := by
  intro stage
  induction stage with
  | nil =>
      intro s s2 res tid h hq
      rw [execStage_nil] at h
      cases h
      exact hq
  | cons t0 rest ih =>
      intro s s2 res tid h hq
      by_cases hdep : check_dependencies s.queue (fetchTask s.queue t0) = true
      · cases ha : assignAgent reg (fetchTask s.queue t0) with
        | error e => rw [execStage_cons_err hdep ha] at h; cases h
        | ok t1 =>
            rw [execStage_cons_ok hdep ha] at h
            cases hrec : execStage reg
                { queue := updateTask s.queue (processReady t1).1
                  log := s.log ++ (processReady t1).2 } rest with
            | error e => rw [hrec] at h; cases h
            | ok p =>
                obtain ⟨s3, res'⟩ := p
                rw [hrec] at h
                cases h
                exact ih hrec (bareQ_after_ok hreg hq ha)
      · rw [execStage_cons_blocked (Bool.not_eq_true _ ▸ hdep)] at h
        cases hrec : execStage reg
            { s with queue := updateTask s.queue (blockTask (fetchTask s.queue t0)) } rest with
        | error e => rw [hrec] at h; cases h
        | ok p =>
            obtain ⟨s3, res'⟩ := p
            rw [hrec] at h
            cases h
            exact ih hrec (bareQ_after_blocked hq hdep)

theorem execStage_error_of_bare_mem {reg : Registry} (hreg : no_enabled reg) :
    ∀ {stage : List Task} {s : PState} {tid : String} {t : Task},
      t ∈ stage → t.id = tid → bareP t → bareQ s.queue tid →
      ∃ e, execStage reg s stage = Except.error e := by
  intro stage
  induction stage with
  | nil => intro s tid t ht; cases ht
  | cons t0 rest ih =>
      intro s tid t ht hid hb hq
      rcases List.mem_cons.mp ht with h0 | hrest
      · subst h0
        exact execStage_error_of_bare_head hreg (bareP_fetch hq hid hb)
      · by_cases hdep : check_dependencies s.queue (fetchTask s.queue t0) = true
        · cases ha : assignAgent reg (fetchTask s.queue t0) with
          | error e => exact ⟨e, execStage_cons_err hdep ha⟩
          | ok t1 =>
              obtain ⟨e, he⟩ := @ih
                { queue := updateTask s.queue (processReady t1).1
                  log := s.log ++ (processReady t1).2 } tid t hrest hid hb
                (bareQ_after_ok hreg hq ha)
              refine ⟨e, ?_⟩
              rw [execStage_cons_ok hdep ha, he]
        · obtain ⟨e, he⟩ := @ih
            { s with queue := updateTask s.queue (blockTask (fetchTask s.queue t0)) }
            tid t hrest hid hb (bareQ_after_blocked hq hdep)
          refine ⟨e, ?_⟩
          rw [execStage_cons_blocked (Bool.not_eq_true _ ▸ hdep), he]

theorem runStages_cons (reg : Registry) (s : PState) (st : List Task)
    (rest : List (List Task)) :
    runStages reg s (st :: rest) =
      match execStage reg s st with
      | Except.error e => Except.error e
      | Except.ok (s1, res) =>
          match runStages reg s1 rest with
          | Except.error e => Except.error e
          | Except.ok (s2, res') => Except.ok (s2, res ++ res') := rfl

theorem runStages_error_of_bare {reg : Registry} (hreg : no_enabled reg) :
    ∀ {stages : List (List Task)} {s : PState} {tid : String}
      {st : List Task} {t : Task},
      st ∈ stages → t ∈ st → t.id = tid → bareP t → bareQ s.queue tid →
      ∃ e, runStages reg s stages = Except.error e := by
  intro stages
  induction stages with
  | nil => intro s tid st t hst; cases hst
  | cons st0 rest ih =>
      intro s tid st t hst ht hid hb hq
      rcases List.mem_cons.mp hst with h0 | hrest
      · subst h0
        obtain ⟨e, he⟩ := execStage_error_of_bare_mem hreg ht hid hb hq
        refine ⟨e, ?_⟩
        rw [runStages_cons, he]
      · cases hex : execStage reg s st0 with
        | error e => exact ⟨e, by rw [runStages_cons, hex]⟩
        | ok p =>
            obtain ⟨s1, res⟩ := p
            obtain ⟨e, he⟩ :=
              ih hrest ht hid hb (execStage_preserves_bareQ hreg hex hq)
            refine ⟨e, ?_⟩
            rw [runStages_cons, hex]
            simp only []
            rw [he]

/-- C4: `route` raises its no-worker error exactly when the registry has
zero enabled workers system-wide, whatever the category; and in that case
`run()` on a pipeline with a stage containing a routable task (no
dependencies, no truthy assignment, and every queue alias of it likewise)
surfaces the error as a pipeline-level raised error instead of a per-task
failure. -/
theorem claim_C4_no_worker_available (reg : Registry) :
    (∀ category priority,
      (∃ e, route reg category priority = Except.error e) ↔ no_enabled reg) ∧
    (no_enabled reg →
      ∀ (name : String) (s : PState) (stages : List (List Task))
        (st : List Task) (t : Task),
        st ∈ stages → t ∈ st → t.dependencies = [] →
        truthy t.assigned_agent = false → bareQ s.queue t.id →
        ∃ e, run reg name s stages = Except.error e) := by
  refine ⟨route_error_iff reg, ?_⟩
  intro hreg name s stages st t hst ht hd hag hq
  obtain ⟨e, he⟩ := runStages_error_of_bare hreg hst ht rfl ⟨hd, hag⟩ hq
  refine ⟨e, ?_⟩
  unfold run
  rw [he]

/-- Witness for C4: a registry holding one disabled profile makes `route`
raise and makes a one-stage pipeline raise at pipeline level. -/
theorem claim_C4_witness :
    (∃ e, route [wCodexOff] "coding" "medium" = Except.error e) ∧
    (∃ e, run [wCodexOff] "P" { queue := [tskA], log := [] } [[tskA]] =
      Except.error e) := by
  have hno : no_enabled [wCodexOff] := by
    intro p hp
    rw [List.mem_singleton.mp hp]
    rfl
  refine ⟨((claim_C4_no_worker_available [wCodexOff]).1 "coding" "medium").mpr hno, ?_⟩
  refine (claim_C4_no_worker_available [wCodexOff]).2 hno "P"
    { queue := [tskA], log := [] } [[tskA]] [tskA] tskA
    (List.mem_singleton.mpr rfl) (List.mem_singleton.mpr rfl) rfl rfl ?_
  intro u hu _
  rw [List.mem_singleton.mp hu]
  exact ⟨rfl, rfl⟩

/-- Counterexample to C6 as stated: with no enabled worker, the router
error inside `execute_stage` aborts the whole stage — the call returns an
exception and produces no per-task results, so the task is not marked
FAILED and its sibling is never processed. -/
theorem claim_C6_counterexample :
    execStage [wCodexOff] { queue := [tskA, tskB], log := [] } [tskA, tskB] =
      Except.error "No available agent for category: coding" ∧
    (execStage [wCodexOff] { queue := [tskA, tskB], log := [] }
      [tskA, tskB]).toOption = none :=
  ⟨rfl, rfl⟩

/-- C6 (amended): when routing a dependency-clear task raises inside
`execute_stage`, the exception propagates out of the stage call: no
result list is produced, the task is not marked FAILED, and sibling tasks
are not processed. -/
theorem claim_C6_router_error_aborts_stage (reg : Registry) (s : PState)
    (t0 : Task) (rest : List Task) (e : String)
    (hdep : check_dependencies s.queue (fetchTask s.queue t0) = true)
    (ha : assignAgent reg (fetchTask s.queue t0) = Except.error e) :
    execStage reg s (t0 :: rest) = Except.error e :=
  execStage_cons_err hdep ha

/-- Witness for C6 (amended) on a concrete one-task stage. -/
theorem claim_C6_witness :
    execStage [wCodexOff] { queue := [tskA], log := [] } [tskA] =
      Except.error "No available agent for category: coding" :=
  claim_C6_router_error_aborts_stage [wCodexOff]
    { queue := [tskA], log := [] } tskA [] _ rfl rfl

end AgentX
